import Mathlib

/-!
# Verification of the `Log` component of `termscp`

Shallow embedding of `src/ui/activities/filetransfer/components/log.rs`:
the `Log` widget owns an `OwnStates` record (`list_index`, `list_len`,
`focus`), replaces its content through `attr` (`Attribute::Content`),
navigates through `perform` (`Cmd`), and maps keyboard events to commands
in `Component::on`.  Rust `usize` values are embedded as `Nat` (no
arithmetic here can overflow a 64-bit machine word: indices only grow by
bounded increments below `list_len`); the possible `unwrap_table` panic in
`attr` is embedded as an `Option` result.
-/

namespace Termscp

/-- A styled text span; the component never inspects spans, only counts
rows, so only an opaque payload is kept. -/
structure TextSpan where
  content : String
deriving DecidableEq, Repr

/-- `tuirealm::props::Table`: a vector of rows of spans. -/
abbrev Table := List (List TextSpan)

/-- Terminal colors (`tuirealm::props::Color`); treated opaquely by the
component, so the variants are collapsed to `Reset` plus a coded variant. -/
inductive Color where
  | Reset : Color
  | Custom : Nat → Color
deriving DecidableEq, Repr

/-- `tuirealm::props::Borders`, reduced to the only field this file sets. -/
structure Borders where
  color : Color
deriving DecidableEq, Repr

/-- `Borders::default()`: reset color. -/
def Borders.default : Borders := ⟨Color.Reset⟩

/-- `Borders::color`: builder setting the border color. -/
def Borders.setColor (_b : Borders) (c : Color) : Borders := ⟨c⟩

/-- The `tuirealm::props::Attribute` keys used by this component, plus
`Custom` standing for every other attribute key. -/
inductive Attribute where
  | Borders : Attribute
  | Background : Attribute
  | Foreground : Attribute
  | Content : Attribute
  | Focus : Attribute
  | Custom : String → Attribute
deriving DecidableEq, Repr

/-- The `tuirealm::props::AttrValue` payloads used by this component. -/
inductive AttrValue where
  | Borders : Borders → AttrValue
  | Color : Color → AttrValue
  | Table : Table → AttrValue
  | Flag : Bool → AttrValue
deriving DecidableEq, Repr

/-- `AttrValue::unwrap_table` panics unless the value is a `Table`;
the panic is embedded as `none`. -/
def AttrValue.unwrap_table : AttrValue → Option Termscp.Table
  | AttrValue.Table t => some t
  | _ => none

/-- `tuirealm::Props`: a key–value store of attributes, embedded as an
association list where `set` replaces any existing entry for the key. -/
structure Props where
  entries : List (Attribute × AttrValue)
deriving DecidableEq, Repr

/-- `Props::default()`: empty store. -/
def Props.default : Props := ⟨[]⟩

/-- `Props::get`. -/
def Props.get (p : Props) (a : Attribute) : Option AttrValue :=
  (p.entries.find? (fun e => e.1 == a)).map (fun e => e.2)

/-- `Props::set`: insert or replace the value stored at key `a`. -/
def Props.set (p : Props) (a : Attribute) (v : AttrValue) : Props :=
  ⟨(a, v) :: p.entries.filter (fun e => e.1 != a)⟩

/-- `tuirealm::command::Direction`. -/
inductive Direction where
  | Down : Direction
  | Left : Direction
  | Right : Direction
  | Up : Direction
deriving DecidableEq, Repr

/-- `tuirealm::command::Position`. -/
inductive Position where
  | At : Nat → Position
  | Begin : Position
  | End : Position
deriving DecidableEq, Repr

/-- `tuirealm::command::Cmd` (the variants; `Cmd::None` is `NoneCmd`). -/
inductive Cmd where
  | Change : Cmd
  | Custom : String → Cmd
  | Delete : Cmd
  | GoTo : Position → Cmd
  | Move : Direction → Cmd
  | Scroll : Direction → Cmd
  | Submit : Cmd
  | Toggle : Cmd
  | Type : Char → Cmd
  | Tick : Cmd
  | NoneCmd : Cmd
deriving DecidableEq, Repr

/-- `tuirealm::StateValue`, reduced to the variants this component can
produce or that a caller could compare against. -/
inductive StateValue where
  | Usize : Nat → StateValue
  | Flag : Bool → StateValue
deriving DecidableEq, Repr

/-- `tuirealm::State`. -/
inductive State where
  | NoneState : State
  | One : StateValue → State
deriving DecidableEq, Repr

/-- `tuirealm::command::CmdResult` (`Batch` omitted: never produced nor
consumed by this component). -/
inductive CmdResult where
  | Changed : State → CmdResult
  | Invalid : Cmd → CmdResult
  | Submit : State → CmdResult
  | NoneResult : CmdResult
deriving DecidableEq, Repr

/-- `tuirealm::event::Key`, reduced to the keys this component matches on
plus `Char`/`Other` standing for the rest. -/
inductive Key where
  | Up : Key
  | Down : Key
  | PageUp : Key
  | PageDown : Key
  | End : Key
  | Home : Key
  | Tab : Key
  | Enter : Key
  | Esc : Key
  | Char : Char → Key
  | Other : Key
deriving DecidableEq, Repr

/-- `tuirealm::event::KeyEvent`: key code plus modifier bitflags (the
component ignores modifiers via `..` patterns). -/
structure KeyEvent where
  code : Key
  modifiers : Nat
deriving DecidableEq, Repr

/-- `tuirealm::Event<NoUserEvent>`, reduced to the variants reaching the
component. -/
inductive Event where
  | Keyboard : KeyEvent → Event
  | WindowResize : Nat → Nat → Event
  | Tick : Event
deriving DecidableEq, Repr

/-- `UiMsg` from the enclosing `filetransfer` module; only `LogTabbed` is
produced by this component. -/
inductive UiMsg where
  | LogTabbed : UiMsg
deriving DecidableEq, Repr

/-- `Msg` from the enclosing `filetransfer` module, reduced to the
variants this component can return. -/
inductive Msg where
  | None : Msg
  | Ui : UiMsg → Msg
deriving DecidableEq, Repr

/-- `OwnStates`: the component state (`log.rs`). -/
structure OwnStates where
  list_index : Nat
  list_len : Nat
  focus : Bool
deriving DecidableEq, Repr

/-- `impl Default for OwnStates`. -/
def OwnStates.default : OwnStates := ⟨0, 0, false⟩

/-- `OwnStates::set_list_len`. -/
def OwnStates.set_list_len (s : OwnStates) (len : Nat) : OwnStates :=
  { s with list_len := len }

/-- `OwnStates::get_list_index`. -/
def OwnStates.get_list_index (s : OwnStates) : Nat :=
  s.list_index

/-- `OwnStates::incr_list_index`: increment, bounded by the last element. -/
def OwnStates.incr_list_index (s : OwnStates) : OwnStates :=
  if s.list_index + 1 < s.list_len then { s with list_index := s.list_index + 1 } else s

/-- `OwnStates::decr_list_index`: decrement, bounded below by zero. -/
def OwnStates.decr_list_index (s : OwnStates) : OwnStates :=
  if s.list_index > 0 then { s with list_index := s.list_index - 1 } else s

/-- `OwnStates::list_index_at_last`: jump to the last element. -/
def OwnStates.list_index_at_last (s : OwnStates) : OwnStates :=
  { s with list_index := match s.list_len with
      | 0 => 0
      | len => len - 1 }

/-- `OwnStates::reset_list_index`. -/
def OwnStates.reset_list_index (s : OwnStates) : OwnStates :=
  { s with list_index := 0 }

/-- The `Log` component: props plus own states. -/
structure Log where
  props : Props
  states : OwnStates
deriving DecidableEq, Repr

/-- `Log::new`: sets borders, background and content props; default states. -/
def Log.new (lines : Table) (fg bg : Color) : Log :=
  let props := Props.default
  let props := props.set Attribute.Borders (AttrValue.Borders (Borders.default.setColor fg))
  let props := props.set Attribute.Background (AttrValue.Color bg)
  let props := props.set Attribute.Content (AttrValue.Table lines)
  ⟨props, OwnStates.default⟩

/-- `MockComponent::state for Log`. -/
def Log.state (log : Log) : State :=
  State.One (StateValue.Usize log.states.get_list_index)

/-- `MockComponent::query for Log`. -/
def Log.query (log : Log) (a : Attribute) : Option AttrValue :=
  log.props.get a

/-- `MockComponent::attr for Log`: store the attribute; on
`Attribute::Content` re-read the stored table, set the list length to its
row count (`0` when absent) and reset the index.  `none` embeds the
`unwrap_table` panic on a non-table content value. -/
def Log.attr (log : Log) (a : Attribute) (value : AttrValue) : Option Log :=
  let log : Log := ⟨log.props.set a value, log.states⟩
  if a = Attribute.Content then
    match (log.props.get Attribute.Content).map AttrValue.unwrap_table with
    | some (some spans) =>
        some ⟨log.props, (log.states.set_list_len spans.length).reset_list_index⟩
    | some none => none
    | none =>
        some ⟨log.props, (log.states.set_list_len 0).reset_list_index⟩
  else
    some log

/-- `MockComponent::perform for Log`: navigation command dispatch.  Each
arm records the previous index, mutates the states, and reports
`Changed`/`None` according to whether the index moved. -/
def Log.perform (log : Log) (cmd : Cmd) : Log × CmdResult :=
  match cmd with
  | Cmd.Move Direction.Down =>
      let prev := log.states.get_list_index
      let log : Log := ⟨log.props, log.states.incr_list_index⟩
      if prev ≠ log.states.get_list_index then (log, CmdResult.Changed log.state)
      else (log, CmdResult.NoneResult)
  | Cmd.Move Direction.Up =>
      let prev := log.states.get_list_index
      let log : Log := ⟨log.props, log.states.decr_list_index⟩
      if prev ≠ log.states.get_list_index then (log, CmdResult.Changed log.state)
      else (log, CmdResult.NoneResult)
  | Cmd.Scroll Direction.Down =>
      let prev := log.states.get_list_index
      let log : Log :=
        ⟨log.props, (List.range 8).foldl (fun s _ => s.incr_list_index) log.states⟩
      if prev ≠ log.states.get_list_index then (log, CmdResult.Changed log.state)
      else (log, CmdResult.NoneResult)
  | Cmd.Scroll Direction.Up =>
      let prev := log.states.get_list_index
      let log : Log :=
        ⟨log.props, (List.range 8).foldl (fun s _ => s.decr_list_index) log.states⟩
      if prev ≠ log.states.get_list_index then (log, CmdResult.Changed log.state)
      else (log, CmdResult.NoneResult)
  | Cmd.GoTo Position.Begin =>
      let prev := log.states.get_list_index
      let log : Log := ⟨log.props, log.states.reset_list_index⟩
      if prev ≠ log.states.get_list_index then (log, CmdResult.Changed log.state)
      else (log, CmdResult.NoneResult)
  | Cmd.GoTo Position.End =>
      let prev := log.states.get_list_index
      let log : Log := ⟨log.props, log.states.list_index_at_last⟩
      if prev ≠ log.states.get_list_index then (log, CmdResult.Changed log.state)
      else (log, CmdResult.NoneResult)
  | _ => (log, CmdResult.NoneResult)

/-- `Component::on for Log`: keyboard-event to command mapping.  The
mutated component is returned alongside the message. -/
def Log.on (log : Log) (ev : Event) : Log × Option Msg :=
  match ev with
  | Event.Keyboard ⟨Key.Up, _⟩ =>
      ((log.perform (Cmd.Move Direction.Down)).1, some Msg.None)
  | Event.Keyboard ⟨Key.Down, _⟩ =>
      ((log.perform (Cmd.Move Direction.Up)).1, some Msg.None)
  | Event.Keyboard ⟨Key.PageUp, _⟩ =>
      ((log.perform (Cmd.Scroll Direction.Down)).1, some Msg.None)
  | Event.Keyboard ⟨Key.PageDown, _⟩ =>
      ((log.perform (Cmd.Scroll Direction.Up)).1, some Msg.None)
  | Event.Keyboard ⟨Key.End, _⟩ =>
      ((log.perform (Cmd.GoTo Position.Begin)).1, some Msg.None)
  | Event.Keyboard ⟨Key.Home, _⟩ =>
      ((log.perform (Cmd.GoTo Position.End)).1, some Msg.None)
  | Event.Keyboard ⟨Key.Tab, _⟩ => (log, some (Msg.Ui UiMsg.LogTabbed))
  | _ => (log, none)

/-- An operation on the component, for stating multi-step properties:
either a content replacement (`attr` with `Attribute::Content` holding a
table) or a navigation command (`perform`). -/
inductive Op where
  | content : Table → Op
  | nav : Cmd → Op
deriving DecidableEq, Repr

/-- Run a sequence of operations from a component; `none` propagates the
(embedded) panic of `attr`. -/
def Log.runOps (log : Log) : List Op → Option Log
  | [] => some log
  | Op.content t :: rest =>
      (log.attr Attribute.Content (AttrValue.Table t)).bind (fun l => l.runOps rest)
  | Op.nav c :: rest => (log.perform c).1.runOps rest

/-- The data-model invariant on the component state: the index is in
bounds when the list is nonempty, and pinned to zero when it is empty. -/
def OwnStates.Inv (s : OwnStates) : Prop :=
  (s.list_len = 0 → s.list_index = 0) ∧ (0 < s.list_len → s.list_index < s.list_len)

instance (s : OwnStates) : Decidable s.Inv := by
  unfold OwnStates.Inv
  infer_instance

/-- The six `Cmd` values handled by `Log::perform`; every other command
falls into the wildcard arm. -/
def Cmd.handled : Cmd → Bool
  | Cmd.Move Direction.Down => true
  | Cmd.Move Direction.Up => true
  | Cmd.Scroll Direction.Down => true
  | Cmd.Scroll Direction.Up => true
  | Cmd.GoTo Position.Begin => true
  | Cmd.GoTo Position.End => true
  | _ => false

/-- A one-row table used as a concrete fixture. -/
def tW : Table := [[⟨"x"⟩]]

/-- A concrete operation sequence: replace content with `tW`, then move
down once. -/
def opsW : List Op := [Op.content tW, Op.nav (Cmd.Move Direction.Down)]

/-- The component reached by running `opsW` from the initial state. -/
def logW : Log := ⟨⟨[(Attribute.Content, AttrValue.Table tW)]⟩, ⟨0, 1, false⟩⟩

/-- A concrete component with a nonzero index, used to exhibit that
content replacement mutates the index. -/
def logC8 : Log := ⟨Props.default, ⟨1, 2, false⟩⟩

-- helper lemmas on the state operations

@[simp]
lemma incr_list_index_index (s : OwnStates) :
    s.incr_list_index.list_index =
      if s.list_index + 1 < s.list_len then s.list_index + 1 else s.list_index := by
  by_cases h : s.list_index + 1 < s.list_len <;> simp [OwnStates.incr_list_index, h]

@[simp]
lemma incr_list_index_len (s : OwnStates) :
    s.incr_list_index.list_len = s.list_len := by
  by_cases h : s.list_index + 1 < s.list_len <;> simp [OwnStates.incr_list_index, h]

@[simp]
lemma incr_list_index_focus (s : OwnStates) :
    s.incr_list_index.focus = s.focus := by
  by_cases h : s.list_index + 1 < s.list_len <;> simp [OwnStates.incr_list_index, h]

@[simp]
lemma decr_list_index_index (s : OwnStates) :
    s.decr_list_index.list_index = s.list_index - 1 := by
  by_cases h : s.list_index > 0
  · simp [OwnStates.decr_list_index, h]
  · simp [OwnStates.decr_list_index, h]
    omega

@[simp]
lemma decr_list_index_len (s : OwnStates) :
    s.decr_list_index.list_len = s.list_len := by
  by_cases h : s.list_index > 0 <;> simp [OwnStates.decr_list_index, h]

@[simp]
lemma decr_list_index_focus (s : OwnStates) :
    s.decr_list_index.focus = s.focus := by
  by_cases h : s.list_index > 0 <;> simp [OwnStates.decr_list_index, h]

@[simp]
lemma list_index_at_last_index (s : OwnStates) :
    s.list_index_at_last.list_index = s.list_len - 1 := by
  cases h : s.list_len <;> simp [OwnStates.list_index_at_last, h]

@[simp]
lemma list_index_at_last_len (s : OwnStates) :
    s.list_index_at_last.list_len = s.list_len := rfl

@[simp]
lemma list_index_at_last_focus (s : OwnStates) :
    s.list_index_at_last.focus = s.focus := rfl

@[simp]
lemma reset_list_index_index (s : OwnStates) :
    s.reset_list_index.list_index = 0 := rfl

@[simp]
lemma reset_list_index_len (s : OwnStates) :
    s.reset_list_index.list_len = s.list_len := rfl

@[simp]
lemma reset_list_index_focus (s : OwnStates) :
    s.reset_list_index.focus = s.focus := rfl

@[simp]
lemma set_list_len_fields (s : OwnStates) (n : Nat) :
    (s.set_list_len n).list_index = s.list_index ∧ (s.set_list_len n).list_len = n ∧
      (s.set_list_len n).focus = s.focus :=
  ⟨rfl, rfl, rfl⟩

@[simp]
lemma get_list_index_eq (s : OwnStates) : s.get_list_index = s.list_index := rfl

/-- Reading back an attribute just stored returns it. -/
lemma Props.get_set_self (p : Props) (a : Attribute) (v : AttrValue) :
    (p.set a v).get a = some v := by
  simp [Props.get, Props.set, List.find?]

/-- The iterated increment used by `Cmd::Scroll(Down)`: from an in-bounds
index it lands on `min (index + k) (len - 1)`; from an out-of-bounds index
it never moves. -/
lemma iter_incr_list_index (k : Nat) (s : OwnStates) :
    ((List.range k).foldl (fun t _ => t.incr_list_index) s).list_index =
      (if s.list_index < s.list_len then min (s.list_index + k) (s.list_len - 1)
       else s.list_index) ∧
    ((List.range k).foldl (fun t _ => t.incr_list_index) s).list_len = s.list_len ∧
    ((List.range k).foldl (fun t _ => t.incr_list_index) s).focus = s.focus := by
  induction k with
  | zero => simp; split <;> omega
  | succ n ih =>
      rw [List.range_succ, List.foldl_append]
      refine ⟨?_, by simp [ih.2.1], by simp [ih.2.2]⟩
      simp only [List.foldl_cons, List.foldl_nil, incr_list_index_index, ih.1, ih.2.1]
      split <;> split <;> omega

/-- The iterated decrement used by `Cmd::Scroll(Up)`: truncated
subtraction of `k`, saturating at `0`. -/
lemma iter_decr_list_index (k : Nat) (s : OwnStates) :
    ((List.range k).foldl (fun t _ => t.decr_list_index) s).list_index =
      s.list_index - k ∧
    ((List.range k).foldl (fun t _ => t.decr_list_index) s).list_len = s.list_len ∧
    ((List.range k).foldl (fun t _ => t.decr_list_index) s).focus = s.focus := by
  induction k with
  | zero => simp
  | succ n ih =>
      rw [List.range_succ, List.foldl_append]
      refine ⟨?_, by simp [ih.2.1], by simp [ih.2.2]⟩
      simp only [List.foldl_cons, List.foldl_nil, decr_list_index_index, ih.1]
      omega

/-- C2.  Content replacement: setting `Attribute::Content` to a table of
`n` rows through `attr` stores length `n` and resets the index to `0`,
whatever the prior index and length (including `n = 0`). -/
theorem attr_content_resets (log : Log) (t : Table) :
    (log.attr Attribute.Content (AttrValue.Table t)).map
        (fun l => (l.states.list_len, l.states.list_index)) =
      some (t.length, 0) := by
  simp [Log.attr, Props.get_set_self, AttrValue.unwrap_table, OwnStates.set_list_len,
    OwnStates.reset_list_index]

/-- C3.  Single-step move contract: `Move(Down)` bumps the index by one
exactly when `index + 1 < length` and `Move(Up)` drops it by one exactly
when `index > 0`; each returns `Changed` with the new state exactly when
the index moved, and `None` otherwise. -/
theorem perform_move_single_step (log : Log) :
    (log.perform (Cmd.Move Direction.Down)).1.states.list_index =
      (if log.states.list_index + 1 < log.states.list_len
       then log.states.list_index + 1 else log.states.list_index) ∧
    (log.perform (Cmd.Move Direction.Up)).1.states.list_index =
      (if log.states.list_index > 0
       then log.states.list_index - 1 else log.states.list_index) ∧
    (log.perform (Cmd.Move Direction.Down)).2 =
      (if (log.perform (Cmd.Move Direction.Down)).1.states.list_index ≠
            log.states.list_index
       then CmdResult.Changed (State.One (StateValue.Usize
              (log.perform (Cmd.Move Direction.Down)).1.states.list_index))
       else CmdResult.NoneResult) ∧
    (log.perform (Cmd.Move Direction.Up)).2 =
      (if (log.perform (Cmd.Move Direction.Up)).1.states.list_index ≠
            log.states.list_index
       then CmdResult.Changed (State.One (StateValue.Usize
              (log.perform (Cmd.Move Direction.Up)).1.states.list_index))
       else CmdResult.NoneResult) := by
  refine ⟨?_, ?_, ?_, ?_⟩
  · by_cases h : log.states.list_index + 1 < log.states.list_len <;>
      simp [Log.perform, h]
  · by_cases h0 : 0 < log.states.list_index
    · have hne : ¬ (log.states.list_index = log.states.list_index - 1) := by omega
      simp [Log.perform, h0, hne]
    · have h0e : log.states.list_index = 0 := by omega
      simp [Log.perform, h0e]
  · by_cases h : log.states.list_index + 1 < log.states.list_len <;>
      simp [Log.perform, Log.state, h]
  · by_cases h0 : 0 < log.states.list_index
    · have hne : log.states.list_index - 1 ≠ log.states.list_index := by omega
      simp [Log.perform, Log.state, h0, hne, Ne.symm hne]
    · have h0e : log.states.list_index = 0 := by omega
      simp [Log.perform, Log.state, h0e]

/-- `attr` with `Attribute::Content` holding a table: explicit result. -/
lemma attr_content_table_eq (log : Log) (t : Table) :
    log.attr Attribute.Content (AttrValue.Table t) =
      some ⟨log.props.set Attribute.Content (AttrValue.Table t),
            ⟨0, t.length, log.states.focus⟩⟩ := by
  simp [Log.attr, Props.get_set_self, AttrValue.unwrap_table,
    OwnStates.set_list_len, OwnStates.reset_list_index]

/-- `attr` on any attribute other than `Content` leaves the states
untouched. -/
lemma attr_non_content_states (log : Log) (a : Attribute) (v : AttrValue) (l : Log)
    (ha : a ≠ Attribute.Content) (h : log.attr a v = some l) :
    l.states = log.states := by
  simp only [Log.attr] at h
  rw [if_neg ha] at h
  injection h with h
  rw [← h]

/-- `attr` with `Attribute::Content` always resets the index to `0` and
keeps the focus flag, whatever the payload. -/
lemma attr_content_states (log : Log) (v : AttrValue) (l : Log)
    (h : log.attr Attribute.Content v = some l) :
    l.states.list_index = 0 ∧ l.states.focus = log.states.focus := by
  simp only [Log.attr, if_pos rfl] at h
  cases v
  case Table t =>
    simp [Props.get_set_self, AttrValue.unwrap_table] at h
    rw [← h]
    exact ⟨rfl, rfl⟩
  all_goals simp [Props.get_set_self, AttrValue.unwrap_table] at h


/-- `perform` on `Cmd::Scroll(Down)`: the arm written out (eight bounded
increments via the `(0..8).for_each` fold). -/
lemma perform_scroll_down_eq (log : Log) :
    log.perform (Cmd.Scroll Direction.Down) =
      (let prev := log.states.get_list_index
       let log2 : Log :=
         ⟨log.props, (List.range 8).foldl (fun s _ => s.incr_list_index) log.states⟩
       if prev ≠ log2.states.get_list_index then (log2, CmdResult.Changed log2.state)
       else (log2, CmdResult.NoneResult)) := by
  unfold Log.perform
  exact rfl

/-- `perform` on `Cmd::Scroll(Up)`: the arm written out. -/
lemma perform_scroll_up_eq (log : Log) :
    log.perform (Cmd.Scroll Direction.Up) =
      (let prev := log.states.get_list_index
       let log2 : Log :=
         ⟨log.props, (List.range 8).foldl (fun s _ => s.decr_list_index) log.states⟩
       if prev ≠ log2.states.get_list_index then (log2, CmdResult.Changed log2.state)
       else (log2, CmdResult.NoneResult)) := by
  unfold Log.perform
  exact rfl

/-- `perform` on `Cmd::Scroll(Down)` with the iterated states abstracted
into a variable (keeps later proofs from re-evaluating the fold). -/
lemma perform_scroll_down_eqF (log : Log) (F : OwnStates)
    (hF : (List.range 8).foldl (fun s _ => s.incr_list_index) log.states = F) :
    log.perform (Cmd.Scroll Direction.Down) =
      (if log.states.list_index ≠ F.list_index
       then ((⟨log.props, F⟩ : Log),
             CmdResult.Changed (State.One (StateValue.Usize F.list_index)))
       else (⟨log.props, F⟩, CmdResult.NoneResult)) := by
  have h := perform_scroll_down_eq log
  rw [hF] at h
  rw [h]
  exact rfl

/-- `perform` on `Cmd::Scroll(Up)` with the iterated states abstracted. -/
lemma perform_scroll_up_eqF (log : Log) (F : OwnStates)
    (hF : (List.range 8).foldl (fun s _ => s.decr_list_index) log.states = F) :
    log.perform (Cmd.Scroll Direction.Up) =
      (if log.states.list_index ≠ F.list_index
       then ((⟨log.props, F⟩ : Log),
             CmdResult.Changed (State.One (StateValue.Usize F.list_index)))
       else (⟨log.props, F⟩, CmdResult.NoneResult)) := by
  have h := perform_scroll_up_eq log
  rw [hF] at h
  rw [h]
  exact rfl

/-- `perform` never touches the props, the list length or the focus flag. -/
lemma perform_frame (log : Log) (cmd : Cmd) :
    (log.perform cmd).1.props = log.props ∧
    (log.perform cmd).1.states.list_len = log.states.list_len ∧
    (log.perform cmd).1.states.focus = log.states.focus := by
  cases cmd
  case Move d =>
    cases d
    case Down => simp only [Log.perform]; split <;> simp
    case Up => simp only [Log.perform]; split <;> simp
    case Left => exact ⟨rfl, rfl, rfl⟩
    case Right => exact ⟨rfl, rfl, rfl⟩
  case Scroll d =>
    cases d
    case Down =>
      generalize hF : (List.range 8).foldl (fun s _ => s.incr_list_index) log.states = F
      have hi8 := iter_incr_list_index 8 log.states
      rw [hF] at hi8
      rw [perform_scroll_down_eqF log F hF]
      split <;> simp [hi8.2.1, hi8.2.2]
    case Up =>
      generalize hF : (List.range 8).foldl (fun s _ => s.decr_list_index) log.states = F
      have hd8 := iter_decr_list_index 8 log.states
      rw [hF] at hd8
      rw [perform_scroll_up_eqF log F hF]
      split <;> simp [hd8.2.1, hd8.2.2]
    case Left => exact ⟨rfl, rfl, rfl⟩
    case Right => exact ⟨rfl, rfl, rfl⟩
  case GoTo pos =>
    cases pos
    case At n => exact ⟨rfl, rfl, rfl⟩
    case Begin => simp only [Log.perform]; split <;> simp
    case End => simp only [Log.perform]; split <;> simp
  all_goals exact ⟨rfl, rfl, rfl⟩

/-- `perform` preserves the data-model invariant. -/
lemma perform_preserves_inv (log : Log) (cmd : Cmd) (h : log.states.Inv) :
    (log.perform cmd).1.states.Inv := by
  obtain ⟨h0, h1⟩ := h
  cases cmd
  case Move d =>
    cases d
    case Down =>
      simp only [Log.perform]; split <;>
        (simp [OwnStates.Inv]; split_ifs <;> omega)
    case Up =>
      simp only [Log.perform]; split <;> (simp [OwnStates.Inv]; omega)
    case Left => exact ⟨h0, h1⟩
    case Right => exact ⟨h0, h1⟩
  case Scroll d =>
    cases d
    case Down =>
      generalize hF : (List.range 8).foldl (fun s _ => s.incr_list_index) log.states = F
      have hi8 := iter_incr_list_index 8 log.states
      rw [hF] at hi8
      rw [perform_scroll_down_eqF log F hF]
      split <;> (simp [OwnStates.Inv, hi8.1, hi8.2.1]; split_ifs <;> omega)
    case Up =>
      generalize hF : (List.range 8).foldl (fun s _ => s.decr_list_index) log.states = F
      have hd8 := iter_decr_list_index 8 log.states
      rw [hF] at hd8
      rw [perform_scroll_up_eqF log F hF]
      split <;> (simp [OwnStates.Inv, hd8.1, hd8.2.1]; omega)
    case Left => exact ⟨h0, h1⟩
    case Right => exact ⟨h0, h1⟩
  case GoTo pos =>
    cases pos
    case At n => exact ⟨h0, h1⟩
    case Begin =>
      simp only [Log.perform]; split <;> simp [OwnStates.Inv]
    case End =>
      simp only [Log.perform]; split <;> (simp [OwnStates.Inv]; omega)
  all_goals exact ⟨h0, h1⟩

/-- Any operation sequence preserves the data-model invariant. -/
lemma runOps_preserves_inv (ops : List Op) : ∀ (log l : Log), log.states.Inv →
    log.runOps ops = some l → l.states.Inv := by
  induction ops with
  | nil =>
      intro log l h hr
      simp [Log.runOps] at hr
      rw [← hr]
      exact h
  | cons op rest ih =>
      intro log l h hr
      cases op with
      | content t =>
          rw [Log.runOps, attr_content_table_eq] at hr
          simp only [Option.some_bind] at hr
          exact ih _ l ⟨fun _ => rfl, fun hh => hh⟩ hr
      | nav c =>
          rw [Log.runOps] at hr
          exact ih _ l (perform_preserves_inv log c h) hr

/-- C1.  Bound invariant: from the initial state (`index = 0`,
`length = 0`), after any sequence of content replacements (`attr` with
`Attribute::Content`) and navigation commands (`perform`), the cursor
index is strictly below the length when the length is positive, and is
`0` when the length is `0`. -/
theorem runOps_invariant (p : Props) (ops : List Op) (l : Log)
    (h : Log.runOps ⟨p, OwnStates.default⟩ ops = some l) :
    (l.states.list_len = 0 → l.states.list_index = 0) ∧
    (0 < l.states.list_len → l.states.list_index < l.states.list_len) :=
  runOps_preserves_inv ops ⟨p, OwnStates.default⟩ l ⟨fun _ => rfl, fun hh => hh⟩ h

/-- Witness for C1 at a concrete operation sequence. -/
theorem runOps_invariant_witness :
    Log.runOps ⟨Props.default, OwnStates.default⟩ opsW = some logW ∧
    ((logW.states.list_len = 0 → logW.states.list_index = 0) ∧
     (0 < logW.states.list_len → logW.states.list_index < logW.states.list_len)) :=
  ⟨by decide, runOps_invariant Props.default opsW logW (by decide)⟩

/-- C4.  Boundary commands are no-ops, not errors: with a nonempty list, a
move down issued at the last index and a move up issued at index `0` each
leave the component unchanged and return `CmdResult::None`; moreover no
`perform` result is ever anything but `None` or `Changed` (there is no
error result). -/
theorem perform_boundary_noop (p : Props) (len : Nat) (f : Bool) (h : 0 < len) :
    Log.perform ⟨p, ⟨len - 1, len, f⟩⟩ (Cmd.Move Direction.Down) =
      (⟨p, ⟨len - 1, len, f⟩⟩, CmdResult.NoneResult) ∧
    Log.perform ⟨p, ⟨0, len, f⟩⟩ (Cmd.Move Direction.Up) =
      (⟨p, ⟨0, len, f⟩⟩, CmdResult.NoneResult) ∧
    (∀ (log : Log) (cmd : Cmd), (log.perform cmd).2 = CmdResult.NoneResult ∨
      ∃ st, (log.perform cmd).2 = CmdResult.Changed st) := by
  refine ⟨?_, ?_, ?_⟩
  · have hc : ¬ (len - 1 + 1 < len) := by omega
    simp [Log.perform, OwnStates.incr_list_index, hc]
  · rfl
  · intro lg cmd
    cases cmd
    case Move d =>
      cases d
      case Down => simp only [Log.perform]; split <;> simp
      case Up => simp only [Log.perform]; split <;> simp
      case Left => exact Or.inl rfl
      case Right => exact Or.inl rfl
    case Scroll d =>
      cases d
      case Down =>
        generalize hF : (List.range 8).foldl (fun s _ => s.incr_list_index) lg.states = F
        rw [perform_scroll_down_eqF lg F hF]
        split <;> simp
      case Up =>
        generalize hF : (List.range 8).foldl (fun s _ => s.decr_list_index) lg.states = F
        rw [perform_scroll_up_eqF lg F hF]
        split <;> simp
      case Left => exact Or.inl rfl
      case Right => exact Or.inl rfl
    case GoTo pos =>
      cases pos
      case At n => exact Or.inl rfl
      case Begin => simp only [Log.perform]; split <;> simp
      case End => simp only [Log.perform]; split <;> simp
    all_goals exact Or.inl rfl

/-- Witness for C4 on a three-element list. -/
theorem perform_boundary_noop_witness :
    0 < 3 ∧
    Log.perform ⟨Props.default, ⟨2, 3, false⟩⟩ (Cmd.Move Direction.Down) =
      (⟨Props.default, ⟨2, 3, false⟩⟩, CmdResult.NoneResult) :=
  ⟨by decide, (perform_boundary_noop Props.default 3 false (by decide)).1⟩

/-- C5.  Page scroll: on a state satisfying the data-model bound
(`index < length`, so in particular `length > 0`), `Scroll(Down)` applies
the bounded increment eight times, landing on
`min (index + 8) (length - 1)`, and returns `Changed` exactly when the
index moved; concretely, from index `0` on a length-20 list it lands on
`8` and from index `15` on `19`, both reporting `Changed`. -/
theorem perform_scroll_down_spec (log : Log)
    (h : log.states.list_index < log.states.list_len) :
    (log.perform (Cmd.Scroll Direction.Down)).1.states.list_index =
      min (log.states.list_index + 8) (log.states.list_len - 1) ∧
    (log.perform (Cmd.Scroll Direction.Down)).2 =
      (if min (log.states.list_index + 8) (log.states.list_len - 1) ≠
            log.states.list_index
       then CmdResult.Changed (State.One (StateValue.Usize
              (min (log.states.list_index + 8) (log.states.list_len - 1))))
       else CmdResult.NoneResult) ∧
    Log.perform ⟨Props.default, ⟨0, 20, false⟩⟩ (Cmd.Scroll Direction.Down) =
      (⟨Props.default, ⟨8, 20, false⟩⟩,
       CmdResult.Changed (State.One (StateValue.Usize 8))) ∧
    Log.perform ⟨Props.default, ⟨15, 20, false⟩⟩ (Cmd.Scroll Direction.Down) =
      (⟨Props.default, ⟨19, 20, false⟩⟩,
       CmdResult.Changed (State.One (StateValue.Usize 19))) := by
  generalize hF : (List.range 8).foldl (fun s _ => s.incr_list_index) log.states = F
  have hi8 := iter_incr_list_index 8 log.states
  rw [hF] at hi8
  have hFi : F.list_index = min (log.states.list_index + 8) (log.states.list_len - 1) := by
    rw [hi8.1, if_pos h]
  rw [perform_scroll_down_eqF log F hF]
  refine ⟨?_, ?_, by decide, by decide⟩
  · split <;> simp [hFi]
  · by_cases hc : log.states.list_index = F.list_index
    · simp [← hFi, ← hc]
    · simp [← hFi, hc, Ne.symm hc]

/-- Witness for C5 at a concrete in-bounds state. -/
theorem perform_scroll_down_spec_witness :
    (2 : Nat) < 10 ∧
    (Log.perform ⟨Props.default, ⟨2, 10, false⟩⟩
        (Cmd.Scroll Direction.Down)).1.states.list_index = min (2 + 8) (10 - 1) :=
  ⟨by decide,
   (perform_scroll_down_spec ⟨Props.default, ⟨2, 10, false⟩⟩ (by decide)).1⟩

/-- C6.  Jump semantics: `GoTo(End)` sets the index to `length - 1`
(which is `0` on an empty list, i.e. `max (length - 1, 0)`); on an empty
list (with the data-model invariant) the whole component is unchanged and
the result is `CmdResult::None`; and on a length-5 list, `GoTo(Begin)`
then `GoTo(End)` yields the index sequence `0`, `4`. -/
theorem perform_goto_end_spec (log : Log) (hInv : log.states.Inv) :
    (log.perform (Cmd.GoTo Position.End)).1.states.list_index =
      log.states.list_len - 1 ∧
    (log.states.list_len = 0 →
      log.perform (Cmd.GoTo Position.End) = (log, CmdResult.NoneResult)) ∧
    (Log.perform ⟨Props.default, ⟨2, 5, false⟩⟩
        (Cmd.GoTo Position.Begin)).1.states.list_index = 0 ∧
    ((Log.perform ⟨Props.default, ⟨2, 5, false⟩⟩
        (Cmd.GoTo Position.Begin)).1.perform
        (Cmd.GoTo Position.End)).1.states.list_index = 4 := by
  obtain ⟨p, i, l, f⟩ := log
  obtain ⟨hc0, hc1⟩ := hInv
  refine ⟨?_, ?_, by decide, by decide⟩
  · simp only [Log.perform]; split <;> simp
  · intro h0
    have h0l : l = 0 := h0
    have hil : i = 0 := hc0 h0
    subst h0l
    subst hil
    rfl

/-- Witness for C6 on the empty list. -/
theorem perform_goto_end_spec_witness :
    (⟨Props.default, ⟨0, 0, false⟩⟩ : Log).states.Inv ∧
    Log.perform ⟨Props.default, ⟨0, 0, false⟩⟩ (Cmd.GoTo Position.End) =
      (⟨Props.default, ⟨0, 0, false⟩⟩, CmdResult.NoneResult) :=
  ⟨by decide,
   (perform_goto_end_spec ⟨Props.default, ⟨0, 0, false⟩⟩ (by decide)).2.1 rfl⟩

/-- C7.  Key-to-command mapping (inverted, bottom-anchored): `Up` runs the
internal move-down and `Down` move-up, `PageUp` the 8-step scroll-down and
`PageDown` scroll-up, `End` jump-to-start and `Home` jump-to-end, each
returning `Msg::None`; `Tab` performs no navigation command and returns
`Msg::Ui(UiMsg::LogTabbed)` without mutating any state. -/
theorem on_key_mapping (log : Log) (m : Nat) :
    log.on (Event.Keyboard ⟨Key.Up, m⟩) =
      ((log.perform (Cmd.Move Direction.Down)).1, some Msg.None) ∧
    log.on (Event.Keyboard ⟨Key.Down, m⟩) =
      ((log.perform (Cmd.Move Direction.Up)).1, some Msg.None) ∧
    log.on (Event.Keyboard ⟨Key.PageUp, m⟩) =
      ((log.perform (Cmd.Scroll Direction.Down)).1, some Msg.None) ∧
    log.on (Event.Keyboard ⟨Key.PageDown, m⟩) =
      ((log.perform (Cmd.Scroll Direction.Up)).1, some Msg.None) ∧
    log.on (Event.Keyboard ⟨Key.End, m⟩) =
      ((log.perform (Cmd.GoTo Position.Begin)).1, some Msg.None) ∧
    log.on (Event.Keyboard ⟨Key.Home, m⟩) =
      ((log.perform (Cmd.GoTo Position.End)).1, some Msg.None) ∧
    log.on (Event.Keyboard ⟨Key.Tab, m⟩) = (log, some (Msg.Ui UiMsg.LogTabbed)) :=
  ⟨rfl, rfl, rfl, rfl, rfl, rfl, rfl⟩

/-- C8 counterexample.  The claim says navigation commands are the sole
mutators of `index`, but a content-replacement `attr` call also mutates
it: on a component with `index = 1`, setting `Attribute::Content` to an
empty table resets the index to `0`. -/
theorem frame_counterexample :
    logC8.states.list_index = 1 ∧
    (logC8.attr Attribute.Content (AttrValue.Table [])).map
        (fun l => l.states.list_index) = some 0 :=
  ⟨rfl, rfl⟩

/-- C8 (amended).  Frame conditions: the initial state is `index = 0`,
`length = 0`, `focused = false`; every `perform` call leaves the length
and the focus flag unchanged (it can mutate only the index); `attr` with
any attribute other than `Content` leaves the states entirely unchanged,
so content replacement is the sole mutator of the length; and the
mutators of the index are the navigation commands together with content
replacement, which always resets it to `0` (nothing ever mutates the
focus flag). -/
theorem frame_conditions :
    OwnStates.default.list_index = 0 ∧ OwnStates.default.list_len = 0 ∧
      OwnStates.default.focus = false ∧
    (∀ (t : Table) (fg bg : Color), (Log.new t fg bg).states = OwnStates.default) ∧
    (∀ (lg : Log) (cmd : Cmd),
      (lg.perform cmd).1.states.list_len = lg.states.list_len ∧
      (lg.perform cmd).1.states.focus = lg.states.focus) ∧
    (∀ (lg l : Log) (a : Attribute) (v : AttrValue), a ≠ Attribute.Content →
      lg.attr a v = some l → l.states = lg.states) ∧
    (∀ (lg l : Log) (v : AttrValue), lg.attr Attribute.Content v = some l →
      l.states.list_index = 0 ∧ l.states.focus = lg.states.focus) := by
  refine ⟨rfl, rfl, rfl, fun t fg bg => rfl, ?_, ?_, ?_⟩
  · intro lg cmd
    exact ⟨(perform_frame lg cmd).2.1, (perform_frame lg cmd).2.2⟩
  · intro lg l a v ha h
    exact attr_non_content_states lg a v l ha h
  · intro lg l v h
    exact attr_content_states lg v l h

/-- Witness for C8 (amended): a non-`Content` `attr` call leaves the
states unchanged on a concrete component. -/
theorem frame_conditions_witness :
    Attribute.Focus ≠ Attribute.Content ∧
    Log.attr logC8 Attribute.Focus (AttrValue.Flag true) =
      some ⟨Props.default.set Attribute.Focus (AttrValue.Flag true), ⟨1, 2, false⟩⟩ ∧
    (⟨Props.default.set Attribute.Focus (AttrValue.Flag true),
        ⟨1, 2, false⟩⟩ : Log).states = logC8.states :=
  ⟨by decide, by decide,
   frame_conditions.2.2.2.2.2.1 logC8
     ⟨Props.default.set Attribute.Focus (AttrValue.Flag true), ⟨1, 2, false⟩⟩
     Attribute.Focus (AttrValue.Flag true) (by decide) (by decide)⟩

/-- C9.  Totality / no wraparound: the navigation operations are total
functions on the state; the decrement at index `0` and the
last-element computation at length `0` are guarded and clamp to `0`
instead of underflowing, and no operation moves the index past a bound
(the equations use truncated natural subtraction, which is exactly the
clamped value). -/
theorem navigation_clamps (s : OwnStates) :
    s.decr_list_index.list_index = s.list_index - 1 ∧
    s.list_index_at_last.list_index = s.list_len - 1 ∧
    s.incr_list_index.list_index =
      (if s.list_index + 1 < s.list_len then s.list_index + 1 else s.list_index) ∧
    s.reset_list_index.list_index = 0 ∧
    s.decr_list_index.list_index ≤ s.list_index ∧
    OwnStates.decr_list_index ⟨0, s.list_len, s.focus⟩ = ⟨0, s.list_len, s.focus⟩ ∧
    OwnStates.list_index_at_last ⟨s.list_index, 0, s.focus⟩ =
      ⟨0, 0, s.focus⟩ :=
  ⟨by simp, by simp, by simp, rfl, by simp, rfl, rfl⟩

/-- C10.  For every command other than the six handled navigation
commands (`Move` Up/Down, `Scroll` Up/Down, `GoTo` Begin/End), `perform`
returns `CmdResult::None` and leaves the whole component (index, length,
focus flag, props) unchanged. -/
theorem perform_unhandled_noop (log : Log) (cmd : Cmd) (h : cmd.handled = false) :
    log.perform cmd = (log, CmdResult.NoneResult) := by
  cases cmd
  case Move d =>
    cases d
    case Down => simp [Cmd.handled] at h
    case Up => simp [Cmd.handled] at h
    case Left => rfl
    case Right => rfl
  case Scroll d =>
    cases d
    case Down => simp [Cmd.handled] at h
    case Up => simp [Cmd.handled] at h
    case Left => rfl
    case Right => rfl
  case GoTo pos =>
    cases pos
    case At n => rfl
    case Begin => simp [Cmd.handled] at h
    case End => simp [Cmd.handled] at h
  all_goals rfl

/-- Witness for C10 at `Cmd::Submit`. -/
theorem perform_unhandled_noop_witness :
    Cmd.handled Cmd.Submit = false ∧
    Log.perform ⟨Props.default, ⟨3, 9, false⟩⟩ Cmd.Submit =
      (⟨Props.default, ⟨3, 9, false⟩⟩, CmdResult.NoneResult) :=
  ⟨rfl, perform_unhandled_noop ⟨Props.default, ⟨3, 9, false⟩⟩ Cmd.Submit rfl⟩

/-- The walkthrough scenario of the spec: a 3-line list from index `0`,
three `Move(Down)` commands give indices `1`, `2`, `2`, changed on the
first two and unchanged on the third. -/
example :
    (Log.perform ⟨Props.default, ⟨0, 3, false⟩⟩
        (Cmd.Move Direction.Down)).1.states.list_index = 1 ∧
    (Log.perform ⟨Props.default, ⟨0, 3, false⟩⟩ (Cmd.Move Direction.Down)).2 =
      CmdResult.Changed (State.One (StateValue.Usize 1)) ∧
    (Log.perform ⟨Props.default, ⟨1, 3, false⟩⟩
        (Cmd.Move Direction.Down)).1.states.list_index = 2 ∧
    (Log.perform ⟨Props.default, ⟨1, 3, false⟩⟩ (Cmd.Move Direction.Down)).2 =
      CmdResult.Changed (State.One (StateValue.Usize 2)) ∧
    (Log.perform ⟨Props.default, ⟨2, 3, false⟩⟩
        (Cmd.Move Direction.Down)).1.states.list_index = 2 ∧
    (Log.perform ⟨Props.default, ⟨2, 3, false⟩⟩ (Cmd.Move Direction.Down)).2 =
      CmdResult.NoneResult := by
  decide

end Termscp
